import Mathlib

/-!
Shallow embedding of the sentence-embedding core of
`modules/model/Embedding/text2vec/model/base.py` (classes `BaseModel` and
`BaseSentenceModel`), together with theorems settling the specification
claims about it.

Modelling conventions:
* Real-valued tensors are modelled over `ℚ`; per-sentence tensor slices are
  total functions out of `Fin`.
* A transformer output for one sentence is a `ModelOutput`: the tuple
  `hidden_states` (the embedding layer output plus at least one transformer
  layer, hence `nL + 2` layers) over a non-empty padded sequence (`L + 1`
  token positions), plus the `pooler_output` vector.  The encoder itself is
  the external collaborator and stays abstract.
* All pooling operations of `get_sentence_embeddings` act independently on
  each sentence of a batch, so they are embedded per sentence.
* `torch.avg_pool1d(x.transpose(1, 2), kernel_size=seq_length).squeeze(-1)`
  on a per-sentence slice is the per-channel average over the sequence
  dimension (kernel covers the whole sequence, stride irrelevant).
* `np.argsort` is realised by a deterministic comparison sort over the index
  range; every theorem proved about it depends only on it being a sorted
  permutation of the indices, which holds for any tie-breaking order.
-/

/-- EncoderType enum from `text2vec.utils.base`, as dispatched on by
`get_sentence_embeddings`. -/
inductive EncoderType
  | FIRST_LAST_AVG
  | LAST_AVG
  | CLS
  | POOLER
  | MEAN
deriving DecidableEq

/-- Membership domain of the constructor check, `list(EncoderType)`. -/
def encoderTypeList : List EncoderType :=
  [.FIRST_LAST_AVG, .LAST_AVG, .CLS, .POOLER, .MEAN]

/-- Validation of `encoder_type` performed by `BaseModel.__init__`
(lines 43–48): raise `ValueError` when the value is neither a member of
`list(EncoderType)` nor `None`; otherwise store it. -/
def validateEncoderType (encoder_type : Option EncoderType) :
    Except String (Option EncoderType) :=
  if (∀ t ∈ encoderTypeList, encoder_type ≠ some t) ∧ encoder_type ≠ none then
    Except.error "encoder_type must be in list(EncoderType) or None"
  else
    Except.ok encoder_type

/-- Per-sentence output of `self.model(input_ids, attention_mask,
token_type_ids, output_hidden_states=True)`: `hidden_states` has the
embedding output at index 0 and the transformer layers after it (a BERT
encoder always yields at least two entries), each layer being a
`seq_len × hidden_dim` slice with `seq_len ≥ 1`; `pooler_output` is the
learned pooling head output. -/
structure ModelOutput (nL L d : Nat) where
  hiddenStates : Fin (nL + 2) → Fin (L + 1) → Fin d → ℚ
  poolerOutput : Fin d → ℚ

/-- Attribute `model_output.last_hidden_state`, which for this encoder equals
`hidden_states[-1]`. -/
def ModelOutput.last_hidden_state {nL L d : Nat} (out : ModelOutput nL L d) :
    Fin (L + 1) → Fin d → ℚ :=
  out.hiddenStates (Fin.last (nL + 1))

/-- Per-sentence embedding of `torch.avg_pool1d(x.transpose(1, 2),
kernel_size=seq_length).squeeze(-1)`: the unweighted average of the token
vectors over the whole sequence dimension, per channel. -/
def avgPoolSeq {L d : Nat} (x : Fin L → Fin d → ℚ) : Fin d → ℚ :=
  fun j => (∑ i, x i j) / (L : ℚ)

/-- Per-sentence embedding of `torch.cat([a.unsqueeze(1), b.unsqueeze(1)],
dim=1)`: a two-row stack of the vectors `a` and `b`. -/
def catTwo {d : Nat} (a b : Fin d → ℚ) : Fin 2 → Fin d → ℚ :=
  fun i => if i = 0 then a else b

/-- Body of `BaseSentenceModel.get_sentence_embeddings` (lines 134–167) for
one sentence, given the encoder output for that sentence and its attention
mask row.  Each `if self.encoder_type == ...` branch is one arm; when
`encoder_type` matches no variant (in particular `None`) the Python function
falls off the end and returns `None`. -/
def get_sentence_embeddings {nL L d : Nat} (encoder_type : Option EncoderType)
    (out : ModelOutput nL L d) (attention_mask : Fin (L + 1) → ℚ) :
    Option (Fin d → ℚ) :=
  match encoder_type with
  | some .FIRST_LAST_AVG =>
      let first := out.hiddenStates ⟨1, by omega⟩
      let last := out.hiddenStates (Fin.last (nL + 1))
      let first_avg := avgPoolSeq first
      let last_avg := avgPoolSeq last
      some (avgPoolSeq (catTwo first_avg last_avg))
  | some .LAST_AVG =>
      some (avgPoolSeq out.last_hidden_state)
  | some .CLS =>
      some (fun j => out.last_hidden_state 0 j)
  | some .POOLER =>
      some out.poolerOutput
  | some .MEAN =>
      some (fun j =>
        (∑ i, out.last_hidden_state i j * attention_mask i) /
          max (∑ i, attention_mask i) (1 / 1000000000))
  | none => none

/-- Written from the specification text for FIRST_LAST_AVG: average the first
transformer layer over the sequence dimension, average the last layer
likewise, then average the two resulting vectors element-wise. -/
def firstLastAvgSpec {L d : Nat} (first last : Fin (L + 1) → Fin d → ℚ) :
    Fin d → ℚ :=
  fun j => ((∑ i, first i j) / ((L : ℚ) + 1) + (∑ i, last i j) / ((L : ℚ) + 1)) / 2

/-- Realisation of `np.argsort(key)` over indices `0..n-1`: the index range
sorted by the key, ascending.  `np.argsort`s tie order is
algorithm-dependent; every theorem below about `argsort` only uses that the
result is a permutation of `List.range n` sorted by the key. -/
def argsort (key : Nat → Int) (n : Nat) : List Nat :=
  List.insertionSort (fun i j => key i ≤ key j) (List.range n)

/-- Batching loop structure of `encode` (line 191): successive slices
`sentences_sorted[start : start + batch_size]`.  A zero `batch_size` is a
caller error in the source (`range` with step 0 raises); it is modelled as
producing no batches. -/
def chunkList {α : Type} : Nat → List α → List (List α)
  | _, [] => []
  | 0, _ :: _ => []
  | bs + 1, x :: xs =>
      (x :: xs).take (bs + 1) :: chunkList (bs + 1) ((x :: xs).drop (bs + 1))
termination_by _ l => l.length
decreasing_by simp [List.length_drop]; omega

/-- Body of `BaseSentenceModel.encode` (lines 188–206) for a list input:
sort indices by descending character length, gather the sentences in that
order, embed batch by batch (`embedBatch` abstracts
`get_sentence_embeddings ∘ tokenizer` on one batch), concatenate, and
restore the original order through `np.argsort(length_sorted_idx)`. -/
def encodeList {β : Type} (embedBatch : List String → List β) (batch_size : Nat)
    (dflt : β) (sentences : List String) : List β :=
  let n := sentences.length
  let length_sorted_idx := argsort (fun i => -((sentences.getD i "").length : Int)) n
  let sentences_sorted := length_sorted_idx.map (fun i => sentences.getD i "")
  let all_embeddings := ((chunkList batch_size sentences_sorted).map embedBatch).flatten
  let inv_idx := argsort (fun i => (length_sorted_idx.getD i 0 : Int)) n
  inv_idx.map (fun i => all_embeddings.getD i dflt)

/-- Input contract of `encode`: a single sentence or a sequence of
sentences. -/
inductive EncodeInput
  | single (s : String)
  | batch (l : List String)

/-- Result shape of `encode`: one unwrapped embedding for a single-string
input, a sequence of embeddings otherwise. -/
inductive EncodeOutput (β : Type)
  | single (e : β)
  | batch (l : List β)
deriving DecidableEq

/-- Top of `BaseSentenceModel.encode` (lines 183–211): a string input is
wrapped into a one-element list, processed like any list, and unwrapped via
`all_embeddings[0]` at the end. -/
def encode {β : Type} (embedBatch : List String → List β) (batch_size : Nat)
    (dflt : β) : EncodeInput → EncodeOutput β
  | .single s => .single ((encodeList embedBatch batch_size dflt [s]).getD 0 dflt)
  | .batch l => .batch (encodeList embedBatch batch_size dflt l)

/-- Result dictionary assembled by `BaseSentenceModel.evaluate`
(lines 250–251): `results["eval_spearman"] = spearman` then
`results["eval_pearson"] = pearson`, in insertion order.  The correlation
scalars themselves come from `compute_spearmanr`/`compute_pearsonr` in the
external `text2vec.utils.base` module and stay abstract. -/
def evaluateResults {γ : Type} (spearman pearson : γ) : List (String × γ) :=
  [("eval_spearman", spearman), ("eval_pearson", pearson)]

/-- Key enumeration `sorted(results.keys())` of the report writer
(line 255). -/
def sortedKeys {γ : Type} (results : List (String × γ)) : List String :=
  List.insertionSort (fun a b => a ≤ b) (results.map Prod.fst)

/-- Report lines written by lines 255–256: one `"{} = {}\n".format(key,
str(results[key]))` line per key, in sorted key order. -/
def reportLines {γ : Type} (render : γ → String)
    (results : List (String × γ)) : List String :=
  (sortedKeys results).map
    (fun k => k ++ " = " ++ ((results.lookup k).elim "" render) ++ "\n")

/-! Helper lemmas about `argsort` and `chunkList`.  None of them is a claim
theorem; the claim theorems below build on them. -/

lemma argsort_perm (key : Nat → Int) (n : Nat) :
    List.Perm (argsort key n) (List.range n) :=
  List.perm_insertionSort _ _

lemma argsort_length (key : Nat → Int) (n : Nat) : (argsort key n).length = n :=
  (argsort_perm key n).length_eq.trans (List.length_range n)

lemma argsort_sorted (key : Nat → Int) (n : Nat) :
    List.Sorted (fun i j => key i ≤ key j) (argsort key n) := by
  haveI : IsTotal Nat (fun i j => key i ≤ key j) := ⟨fun a b => le_total (key a) (key b)⟩
  haveI : IsTrans Nat (fun i j => key i ≤ key j) := ⟨fun a b c hab hbc => le_trans hab hbc⟩
  exact List.sorted_insertionSort _ _

lemma argsort_getD_lt (key : Nat → Int) (n : Nat) (j : Nat) (hj : j < n) :
    (argsort key n).getD j 0 < n := by
  have hlen : (argsort key n).length = n := argsort_length key n
  have hj2 : j < (argsort key n).length := by omega
  rw [List.getD_eq_getElem _ _ hj2]
  have hmem : (argsort key n)[j] ∈ argsort key n := List.getElem_mem hj2
  exact List.mem_range.1 ((argsort_perm key n).mem_iff.1 hmem)

lemma map_getD_range {α : Type} (l : List α) (d : α) :
    (List.range l.length).map (fun i => l.getD i d) = l := by
  apply List.ext_getElem
  · simp
  · intro i h1 h2
    simp only [List.getElem_map, List.getElem_range]
    exact List.getD_eq_getElem _ _ h2

lemma getD_map_lt {α β : Type} (f : α → β) (l : List α) (d : β) (d0 : α) (i : Nat)
    (h : i < l.length) : (l.map f).getD i d = f (l.getD i d0) := by
  rw [List.getD_eq_getElem _ _ (by simpa using h), List.getD_eq_getElem _ _ h,
    List.getElem_map]

lemma getD_range_lt (n j : Nat) (hj : j < n) : (List.range n).getD j 0 = j := by
  rw [List.getD_eq_getElem _ _ (by simpa using hj)]
  simp [List.getElem_range]

/-- Composing a permutation of `0..n-1` with the `argsort` of its own entries
restores the identity: this is exactly the order-restoration step
`all_embeddings = [all_embeddings[idx] for idx in np.argsort(length_sorted_idx)]`
of `encode`. -/
lemma argsort_inverse (idx : List Nat) (n : Nat)
    (hperm : List.Perm idx (List.range n)) (j : Nat) (hj : j < n) :
    idx.getD ((argsort (fun i => (idx.getD i 0 : Int)) n).getD j 0) 0 = j := by
  have hlen_idx : idx.length = n := hperm.length_eq.trans (List.length_range n)
  have hinvp : List.Perm (argsort (fun i => (idx.getD i 0 : Int)) n) (List.range n) :=
    argsort_perm _ _
  have hlen_inv : (argsort (fun i => (idx.getD i 0 : Int)) n).length = n :=
    argsort_length _ _
  have hsorted : List.Sorted (fun a b => ((idx.getD a 0 : Int)) ≤ ((idx.getD b 0 : Int)))
      (argsort (fun i => (idx.getD i 0 : Int)) n) := argsort_sorted _ _
  have hmap_sorted : List.Sorted (· ≤ ·)
      ((argsort (fun i => (idx.getD i 0 : Int)) n).map (fun i => idx.getD i 0)) := by
    rw [List.Sorted, List.pairwise_map]
    exact hsorted.imp (fun hab => by exact_mod_cast hab)
  have hrange_map : (List.range n).map (fun i => idx.getD i 0) = idx := by
    conv_lhs => rw [← hlen_idx]
    exact map_getD_range idx 0
  have e1 : List.Perm
      ((argsort (fun i => (idx.getD i 0 : Int)) n).map (fun i => idx.getD i 0))
      ((List.range n).map (fun i => idx.getD i 0)) := hinvp.map _
  rw [hrange_map] at e1
  have heq : (argsort (fun i => (idx.getD i 0 : Int)) n).map (fun i => idx.getD i 0) =
      List.range n :=
    List.eq_of_perm_of_sorted (e1.trans hperm) hmap_sorted (List.sorted_le_range n)
  have h1 : ((argsort (fun i => (idx.getD i 0 : Int)) n).map
      (fun i => idx.getD i 0)).getD j 0 =
      idx.getD ((argsort (fun i => (idx.getD i 0 : Int)) n).getD j 0) 0 :=
    getD_map_lt _ _ 0 0 j (by omega)
  rw [heq] at h1
  rw [← h1]
  exact getD_range_lt n j hj

lemma chunkList_flatten {α : Type} (bs : Nat) (l : List α) :
    0 < bs → (chunkList bs l).flatten = l := by
  induction bs, l using chunkList.induct with
  | case1 bs => intro h; simp [chunkList]
  | case2 x xs => intro h; omega
  | case3 bs x xs ih =>
      intro h
      rw [chunkList]
      simp only [List.flatten_cons]
      rw [ih (by omega), List.take_append_drop]

/-- Core behaviour of the `encode` body: provided the batch embedder acts
sentence-wise (`hper`) and the batch size is positive, the result has the
length of the input and position `i` carries the embedding of input
sentence `i` — the length-sort reordering is fully undone. -/
lemma encodeList_spec {β : Type} (embedBatch : List String → List β)
    (embedOne : String → β) (batch_size : Nat) (dflt : β) (sentences : List String)
    (hbs : 0 < batch_size)
    (hper : ∀ b, embedBatch b = b.map embedOne) :
    (encodeList embedBatch batch_size dflt sentences).length = sentences.length ∧
    ∀ i, i < sentences.length →
      (encodeList embedBatch batch_size dflt sentences).getD i dflt =
        embedOne (sentences.getD i "") := by
  simp only [encodeList]
  set n := sentences.length with hn
  set key : Nat → Int := fun i => -(((sentences.getD i "").length : Int)) with hkey
  set idx := argsort key n with hidx
  set g : Nat → String := fun i => sentences.getD i "" with hg
  set key2 : Nat → Int := fun i => (idx.getD i 0 : Int) with hkey2
  set inv := argsort key2 n with hinv
  have hidxp : List.Perm idx (List.range n) := argsort_perm key n
  have hlen_idx : idx.length = n := argsort_length key n
  have hlen_inv : inv.length = n := argsort_length key2 n
  have hsort_len : (idx.map g).length = n := by simp [hlen_idx]
  have hebfun : embedBatch = fun b => List.map embedOne b := funext hper
  have hall : ((chunkList batch_size (idx.map g)).map embedBatch).flatten =
      (idx.map g).map embedOne := by
    rw [hebfun, ← List.map_flatten, chunkList_flatten _ _ hbs]
  constructor
  · simp [hlen_inv]
  · intro i hi
    have hk : inv.getD i 0 < n := argsort_getD_lt key2 n i hi
    rw [getD_map_lt _ inv dflt 0 i (by omega)]
    rw [hall]
    rw [getD_map_lt embedOne (idx.map g) dflt "" _ (by omega)]
    rw [getD_map_lt g idx "" 0 _ (by omega)]
    have hres : idx.getD (inv.getD i 0) 0 = i := by
      have := argsort_inverse idx n hidxp i hi
      rw [hinv, hkey2]
      exact this
    rw [hres]

/-- Concrete one-layer-pair, one-token, one-channel encoder output used as a
counterexample input. -/
def zeroMaskExample : ModelOutput 0 0 1 where
  hiddenStates := fun _ _ _ => 5
  poolerOutput := fun _ => 7

/-- Claim C2: for a sentence whose attention mask is all ones, the MEAN
pooling output coincides with the LAST_AVG unweighted mean on the same
hidden states. -/
theorem mean_eq_last_avg_on_all_ones_mask {nL L d : Nat} (out : ModelOutput nL L d) :
    get_sentence_embeddings (some .MEAN) out (fun _ => 1) =
      get_sentence_embeddings (some .LAST_AVG) out (fun _ => 1) := by
  simp only [get_sentence_embeddings, avgPoolSeq]
  congr 1
  funext j
  have hsum1 : (∑ _i : Fin (L + 1), (1 : ℚ)) = ((L : ℚ) + 1) := by
    rw [Finset.sum_const, Finset.card_univ, Fintype.card_fin]
    push_cast
    ring
  have hmax : max (∑ _i : Fin (L + 1), (1 : ℚ)) (1 / 1000000000) = ((L : ℚ) + 1) := by
    rw [hsum1]
    refine max_eq_left ?_
    have h0 : (0 : ℚ) ≤ (L : ℚ) := Nat.cast_nonneg L
    norm_num
    linarith
  rw [hmax]
  simp only [mul_one, avgPoolSeq]
  push_cast
  ring

/-- Claim C3: the FIRST_LAST_AVG branch produces, for each channel, the
element-wise average of the sequence-averaged first transformer layer and
the sequence-averaged last layer. -/
theorem first_last_avg_matches_spec {nL L d : Nat} (out : ModelOutput nL L d)
    (mask : Fin (L + 1) → ℚ) :
    get_sentence_embeddings (some .FIRST_LAST_AVG) out mask =
      some (firstLastAvgSpec (out.hiddenStates ⟨1, by omega⟩)
        (out.hiddenStates (Fin.last (nL + 1)))) := by
  simp only [get_sentence_embeddings]
  congr 1
  funext j
  simp only [avgPoolSeq, catTwo, firstLastAvgSpec, Fin.sum_univ_two, apply_ite]
  norm_num
  simp only [avgPoolSeq]
  push_cast
  ring

/-- Claim C4: the CLS branch returns exactly the first token position of the
final layer of the hidden states, with no averaging. -/
theorem cls_is_first_token_of_last_layer {nL L d : Nat} (out : ModelOutput nL L d)
    (mask : Fin (L + 1) → ℚ) :
    get_sentence_embeddings (some .CLS) out mask =
      some (fun j => out.hiddenStates (Fin.last (nL + 1)) ⟨0, Nat.succ_pos L⟩ j) := by
  simp only [get_sentence_embeddings, ModelOutput.last_hidden_state]
  congr 1

/-- Claim C9: the constructor check accepts `encoder_type = None` without
raising, and `get_sentence_embeddings` then matches no pooling variant and
returns `None` rather than raising a configuration error. -/
theorem none_encoder_type_accepted_and_pools_none :
    validateEncoderType none = Except.ok none ∧
    ∀ (nL L d : Nat) (out : ModelOutput nL L d) (mask : Fin (L + 1) → ℚ),
      get_sentence_embeddings none out mask = none := by
  constructor
  · simp [validateEncoderType]
  · intro nL L d out mask
    rfl

/-- Claim C10: under MEAN pooling an all-zero attention mask hits the 1e-9
clamp floor, so the denominator is the nonzero `1 / 1000000000` and the
result is exactly the zero vector for that sentence. -/
theorem mean_zero_mask_returns_zero_vector {nL L d : Nat} (out : ModelOutput nL L d) :
    get_sentence_embeddings (some .MEAN) out (fun _ => 0) = some (fun _ => 0) ∧
    max (∑ _i : Fin (L + 1), (0 : ℚ)) (1 / 1000000000) = 1 / 1000000000 := by
  constructor
  · simp only [get_sentence_embeddings]
    congr 1
    funext j
    simp
  · simp

/-- Claim C6 counterexample: at a concrete input whose attention mask is all
zeros, MEAN pooling returns an embedding (the zero vector) instead of
failing. -/
theorem zero_mask_pooling_returns_value :
    (get_sentence_embeddings (some .MEAN) zeroMaskExample (fun _ => 0)).isSome = true ∧
    get_sentence_embeddings (some .MEAN) zeroMaskExample (fun _ => 0) =
      some (fun _ => 0) := by
  constructor
  · rfl
  · simp only [get_sentence_embeddings]
    congr 1
    funext j
    simp

/-- Claim C6 as amended: `get_sentence_embeddings` performs no attention-mask
validation at all — for every variant it returns an embedding on an all-zero
mask (MEAN yields the zero vector through the 1e-9 floor, the other variants
ignore the mask). -/
theorem pooling_never_rejects_zero_mask {nL L d : Nat} (et : EncoderType)
    (out : ModelOutput nL L d) :
    (get_sentence_embeddings (some et) out (fun _ => 0)).isSome = true := by
  cases et <;> rfl

/-- Claim C7 counterexample: `encode` on the empty sentence sequence returns
the empty sequence normally instead of failing. -/
theorem encode_empty_counterexample :
    encode (fun b => b.map String.length) 64 0 (EncodeInput.batch []) =
      EncodeOutput.batch [] := rfl

/-- Claim C7 as amended: for every batch embedder and batch size, `encode` on
the empty sentence sequence returns the empty sequence; no input validation
is performed and no error is raised. -/
theorem encode_empty_returns_empty {β : Type} (embedBatch : List String → List β)
    (batch_size : Nat) (dflt : β) :
    encode embedBatch batch_size dflt (EncodeInput.batch []) =
      EncodeOutput.batch [] := rfl

/-- Claim C1: for every sentence list, `encode`s list pipeline returns as
many embeddings as input sentences, and position `i` of the output is the
embedding of input sentence `i` — the descending-length reordering used for
batching is undone by `np.argsort` of the length-sort permutation. -/
theorem encode_preserves_length_and_order {β : Type}
    (embedBatch : List String → List β) (embedOne : String → β)
    (batch_size : Nat) (dflt : β) (sentences : List String)
    (hbs : 0 < batch_size)
    (hper : ∀ b, embedBatch b = b.map embedOne) :
    (encodeList embedBatch batch_size dflt sentences).length = sentences.length ∧
    ∀ i, i < sentences.length →
      (encodeList embedBatch batch_size dflt sentences).getD i dflt =
        embedOne (sentences.getD i "") :=
  encodeList_spec embedBatch embedOne batch_size dflt sentences hbs hper

/-- Witness for C1: three sentences of lengths 2, 1, 4 with batch size 2, so
that the length sort genuinely reorders and splits batches; the embeddings
come back in input order. -/
theorem encode_preserves_length_and_order_witness :
    0 < 2 ∧
    (∀ b : List String, (fun l : List String => l.map String.length) b =
      b.map String.length) ∧
    ((encodeList (fun l : List String => l.map String.length) 2 0
        ["aa", "b", "cccc"]).length = (["aa", "b", "cccc"] : List String).length ∧
     ∀ i, i < (["aa", "b", "cccc"] : List String).length →
       (encodeList (fun l : List String => l.map String.length) 2 0
         ["aa", "b", "cccc"]).getD i 0 =
         String.length ((["aa", "b", "cccc"] : List String).getD i "")) :=
  ⟨Nat.zero_lt_succ 1, fun _ => rfl,
    encode_preserves_length_and_order (fun l : List String => l.map String.length)
      String.length 2 0 ["aa", "b", "cccc"] (Nat.zero_lt_succ 1) (fun _ => rfl)⟩

/-- Claim C5: a single-string input yields one unwrapped embedding, and a
sequence input yields a sequence of equal length whose entry `i` is the
embedding of sentence `i`. -/
theorem encode_single_unwrapped_and_list_ordered {β : Type}
    (embedBatch : List String → List β) (embedOne : String → β)
    (batch_size : Nat) (dflt : β)
    (hbs : 0 < batch_size)
    (hper : ∀ b, embedBatch b = b.map embedOne) :
    (∀ s : String, encode embedBatch batch_size dflt (EncodeInput.single s) =
      EncodeOutput.single (embedOne s)) ∧
    (∀ l : List String, ∃ es : List β,
      encode embedBatch batch_size dflt (EncodeInput.batch l) =
        EncodeOutput.batch es ∧
      es.length = l.length ∧
      ∀ i, i < l.length → es.getD i dflt = embedOne (l.getD i "")) := by
  constructor
  · intro s
    have h := (encodeList_spec embedBatch embedOne batch_size dflt [s] hbs hper).2
      0 (by simp)
    simp only [encode]
    rw [h]
    simp
  · intro l
    exact ⟨encodeList embedBatch batch_size dflt l, rfl,
      (encodeList_spec embedBatch embedOne batch_size dflt l hbs hper).1,
      (encodeList_spec embedBatch embedOne batch_size dflt l hbs hper).2⟩

/-- Witness for C5: applies the claim theorem at the length embedder with
batch size 1. -/
theorem encode_single_unwrapped_and_list_ordered_witness :
    0 < 1 ∧
    (∀ b : List String, (fun l : List String => l.map String.length) b =
      b.map String.length) ∧
    ((∀ s : String, encode (fun l : List String => l.map String.length) 1 0
        (EncodeInput.single s) = EncodeOutput.single (String.length s)) ∧
     (∀ l : List String, ∃ es : List Nat,
       encode (fun ll : List String => ll.map String.length) 1 0
         (EncodeInput.batch l) = EncodeOutput.batch es ∧
       es.length = l.length ∧
       ∀ i, i < l.length → es.getD i 0 = String.length (l.getD i ""))) :=
  ⟨Nat.zero_lt_succ 0, fun _ => rfl,
    encode_single_unwrapped_and_list_ordered (fun l : List String => l.map String.length)
      String.length 1 0 (Nat.zero_lt_succ 0) (fun _ => rfl)⟩

/-- Claim C8: `evaluate` exposes the two correlation scalars under the
stable keys `eval_pearson` and `eval_spearman`, and the persisted report is
one `key = value` line per entry with the keys in lexicographic order. -/
theorem evaluate_keys_and_report {γ : Type} (render : γ → String)
    (spearman pearson : γ) :
    (evaluateResults spearman pearson).lookup "eval_pearson" = some pearson ∧
    (evaluateResults spearman pearson).lookup "eval_spearman" = some spearman ∧
    sortedKeys (evaluateResults spearman pearson) =
      ["eval_pearson", "eval_spearman"] ∧
    reportLines render (evaluateResults spearman pearson) =
      ["eval_pearson = " ++ render pearson ++ "\n",
       "eval_spearman = " ++ render spearman ++ "\n"] := by
  have hkeys : sortedKeys (evaluateResults spearman pearson) =
      ["eval_pearson", "eval_spearman"] := by
    have hle : ¬ (("eval_spearman" : String) ≤ "eval_pearson") := by
      rw [String.le_iff_toList_le]
      decide
    simp [sortedKeys, evaluateResults, List.insertionSort, List.orderedInsert, hle]
  refine ⟨rfl, rfl, hkeys, ?_⟩
  simp only [reportLines, hkeys]
  rfl
